import Mathlib

/-!
Verification of the TGA image decoder (`src/irr/src/CImageLoaderTGA.cpp`)
against its natural-language specification.

The decoder's operations are shallowly embedded below.  Machine integers of
the source (`u8`, `u16`, `u32`) are modelled as `Nat` with an explicit
`% 2^32` at every point where the source's `u32` arithmetic can wrap; byte
values are normalised with `% 256` exactly where the source reads a `u8`.
A byte stream (`io::IReadFile`) is a length plus a byte-indexed function;
a read of `n` bytes at position `p` transfers `min n (len - p)` bytes and
leaves the rest of the destination untouched, matching the short-read
behaviour of the stream primitives.
-/

namespace TGA

/-- Modulus of the source's 32-bit unsigned arithmetic. -/
def U32 : Nat := 2 ^ 32

/-- The TGA header record (`STGAHeader`), with the field names and widths of
the on-disk layout: `u8` fields hold values `< 256`, `u16` fields `< 65536`.
The fields are stored as `Nat`; theorems constrain ranges where it matters. -/
structure STGAHeader where
  IdLength : Nat
  ColorMapType : Nat
  ImageType : Nat
  ColorMapOrigin : Nat
  ColorMapLength : Nat
  ColorMapEntrySize : Nat
  ImageWidth : Nat
  ImageHeight : Nat
  PixelDepth : Nat
  ImageDescriptor : Nat

/-- A byte stream: `len` bytes, the byte at position `p < len` being
`byteAt p` (normalised `% 256` at each read site). -/
structure TGAStream where
  len : Nat
  byteAt : Nat → Nat

/-- Diagnostics the decoder can emit (`os::Printer::log` call sites). -/
inductive LogMsg where
  /-- "Compressed TGA file RAW chunk tries writing beyond buffer" (line 48). -/
  | rawChunkBeyond
  /-- "Compressed TGA file RLE headertries writing beyond buffer" (line 62). -/
  | rleHeaderBeyond
  /-- "Image dimensions too large in file" (line 128). -/
  | dimsTooLarge
  /-- "Unsupported TGA file type" (line 183). -/
  | unsupportedType
  /-- "Unsupported TGA format" (line 235). -/
  | unsupportedFormat
deriving Repr, DecidableEq

/-- State of `loadCompressedImage`'s packet loop: the output buffer contents
(`buf`, by byte offset; the source's `new u8[imageSize]` is uninitialised, so
the initial contents are a parameter), the ordered list of every byte-store
offset performed into the buffer (`writes`, recorded to reason about bounds),
the `u32` output offset `currentByte`, the stream cursor `pos`, the
diagnostics emitted so far, and a flag recording whether the fuelled loop ran
out of fuel (never set by the loop body itself). -/
structure RLEState where
  buf : Nat → Nat
  writes : List Nat
  currentByte : Nat
  pos : Nat
  logs : List LogMsg
  fuelOut : Bool

/-- Number of bytes a read of `n` bytes at position `pos` actually
transfers. -/
def readCount (s : TGAStream) (pos n : Nat) : Nat :=
  min n (s.len - pos)

/-- Effect on the buffer of `file->read(&data[c], ...)` transferring `k`
bytes from stream position `q`: offsets `c ≤ o < c + k` receive the stream
bytes, everything else is untouched.  (The destination pointer `&data[c]`
advances without 32-bit wrap, so the offsets are plain sums.) -/
def writeFromStream (s : TGAStream) (q c k : Nat) (buf : Nat → Nat) : Nat → Nat :=
  fun o => if c ≤ o ∧ o < c + k then s.byteAt (q + (o - c)) % 256 else buf o

/-- The chunk-header byte of the packet at stream position `p`: `u8
chunkheader = 0;` then a 1-byte read, which leaves the `0` in place when the
stream is exhausted (source lines 37-38). -/
def chunkOf (s : TGAStream) (p : Nat) : Nat :=
  if p < s.len then s.byteAt p % 256 else 0

/-- Stream cursor after the 1-byte chunk-header read. -/
def posAfterHeader (s : TGAStream) (p : Nat) : Nat :=
  if p < s.len then p + 1 else p

/-- The source's inner copy loop body for one repetition of a run packet
(lines 68-70): `data[currentByte + elementCounter] =
data[dataOffset + elementCounter]` for `elementCounter = 0 .. n-1`, executed
sequentially.  Both index expressions are `u32` sums, hence the `% U32`. -/
def copyBytes (dataOffset c : Nat) : Nat → (Nat → Nat) → (Nat → Nat)
  | 0, buf => buf
  | e + 1, buf =>
    fun o =>
      if o = (c + e) % U32 then copyBytes dataOffset c e buf ((dataOffset + e) % U32)
      else copyBytes dataOffset c e buf o

/-- One iteration of the run packet's repetition loop (source lines 66-74):
if `currentByte + bytesPerPixel <= imageSize` (u32 compare) the sample is
copied to the current offset, otherwise nothing is stored and no diagnostic
is emitted; in either case `currentByte += bytesPerPixel`. -/
def runCopyStep (bpp imageSize dataOffset : Nat) (st : RLEState) : RLEState :=
  if (st.currentByte + bpp) % U32 ≤ imageSize then
    { st with
      buf := copyBytes dataOffset st.currentByte bpp st.buf
      writes := st.writes ++ (List.range bpp).map (fun e => (st.currentByte + e) % U32)
      currentByte := (st.currentByte + bpp) % U32 }
  else
    { st with currentByte := (st.currentByte + bpp) % U32 }

/-- The run packet's repetition loop: `counter` runs from `1` to
`chunkheader - 1`, i.e. `chunkheader - 1` iterations of `runCopyStep`. -/
def runCopies (bpp imageSize dataOffset : Nat) : Nat → RLEState → RLEState
  | 0, st => st
  | k + 1, st => runCopies bpp imageSize dataOffset k (runCopyStep bpp imageSize dataOffset st)

/-- One iteration of the packet loop of `loadCompressedImage` (source lines
36-76).  `Sum.inl` is falling through to the next `while` test, `Sum.inr` is
`break`.  A raw chunk (`chunkheader < 128`) bulk-reads
`bytesPerPixel * (chunkheader + 1)` literal bytes if
`currentByte + bytesToRead <= imageSize` (u32), else logs and breaks.  A run
chunk reads one `bytesPerPixel` sample if
`dataOffset + bytesPerPixel < imageSize` (u32, strict), else logs and
breaks, and then performs `chunkheader - 127 - 1` guarded repetition
steps. -/
def rleIter (s : TGAStream) (bpp imageSize : Nat) (st : RLEState) : RLEState ⊕ RLEState :=
  if chunkOf s st.pos < 128 then
    if (st.currentByte + bpp * (chunkOf s st.pos + 1)) % U32 ≤ imageSize then
      Sum.inl
        { buf := writeFromStream s (posAfterHeader s st.pos) st.currentByte
            (readCount s (posAfterHeader s st.pos) (bpp * (chunkOf s st.pos + 1))) st.buf
          writes := st.writes ++
            (List.range (readCount s (posAfterHeader s st.pos) (bpp * (chunkOf s st.pos + 1)))).map
              (fun j => st.currentByte + j)
          currentByte := (st.currentByte + bpp * (chunkOf s st.pos + 1)) % U32
          pos := posAfterHeader s st.pos +
            readCount s (posAfterHeader s st.pos) (bpp * (chunkOf s st.pos + 1))
          logs := st.logs
          fuelOut := st.fuelOut }
    else
      Sum.inr { st with pos := posAfterHeader s st.pos, logs := st.logs ++ [LogMsg.rawChunkBeyond] }
  else
    if (st.currentByte + bpp) % U32 < imageSize then
      Sum.inl (runCopies bpp imageSize st.currentByte (chunkOf s st.pos - 127 - 1)
        { buf := writeFromStream s (posAfterHeader s st.pos) st.currentByte
            (readCount s (posAfterHeader s st.pos) bpp) st.buf
          writes := st.writes ++
            (List.range (readCount s (posAfterHeader s st.pos) bpp)).map
              (fun j => st.currentByte + j)
          currentByte := (st.currentByte + bpp) % U32
          pos := posAfterHeader s st.pos + readCount s (posAfterHeader s st.pos) bpp
          logs := st.logs
          fuelOut := st.fuelOut })
    else
      Sum.inr { st with pos := posAfterHeader s st.pos, logs := st.logs ++ [LogMsg.rleHeaderBeyond] }

/-- The `while (currentByte < imageSize)` loop, fuelled.  The source loop's
termination is not structural (the u32 offset can wrap), so the embedding
carries fuel; `fuelOut` is set exactly when fuel runs out with the loop
condition still true, so `fuelOut = false` states that the source loop
performed at most `fuel` iterations and exited by its own condition or by
`break`. -/
def rleLoop (s : TGAStream) (bpp imageSize : Nat) : Nat → RLEState → RLEState
  | 0, st => { st with fuelOut := decide (st.currentByte < imageSize) }
  | fuel + 1, st =>
    if st.currentByte < imageSize then
      match rleIter s bpp imageSize st with
      | Sum.inl st' => rleLoop s bpp imageSize fuel st'
      | Sum.inr st' => st'
    else st

/-- Result of `loadCompressedImage`: the allocated buffer has exactly `size`
bytes (`new u8[imageSize]`); `buf`, `writes`, `currentByte`, `logs`,
`fuelOut` are the loop's final state. -/
structure RLEResult where
  size : Nat
  buf : Nat → Nat
  writes : List Nat
  currentByte : Nat
  logs : List LogMsg
  fuelOut : Bool

/-- `CImageLoaderTGA::loadCompressedImage` (source lines 26-79).
`bytesPerPixel = PixelDepth / 8` (integer division of the `u8` field);
`imageSize = ImageHeight * ImageWidth * bytesPerPixel` computed in the
source's 32-bit arithmetic, hence `% U32`.  `buf0` is the (uninitialised)
content of the freshly allocated buffer.  The fuel `s.len + imageSize + 1`
is an upper bound on the iterations of any run that does not make the u32
offset wrap (each iteration consumes a stream byte or advances the offset). -/
def loadCompressedImage (s : TGAStream) (header : STGAHeader) (buf0 : Nat → Nat) : RLEResult :=
  let bytesPerPixel := header.PixelDepth / 8
  let imageSize := (header.ImageHeight * header.ImageWidth * bytesPerPixel) % U32
  let st := rleLoop s bytesPerPixel imageSize (s.len + imageSize + 1)
    { buf := buf0, writes := [], currentByte := 0, pos := 0, logs := [], fuelOut := false }
  { size := imageSize, buf := st.buf, writes := st.writes, currentByte := st.currentByte,
    logs := st.logs, fuelOut := st.fuelOut }

/-- The sentinel colour written to palette slots beyond the declared map
length: `video::SColor(255, 255, 0, 205).color` (source line 144).  `SColor`
packs ARGB as `a<<24 | r<<16 | g<<8 | b` (the file's own comment, line 94:
SColor "=" u32, endianness-order ARGB), giving opaque bright magenta. -/
def errorCol : Nat := 0xffff00cd

/-- Per-entry form of `convert_BGR8_to_SColor` (source lines 95-101): byte
order BGR becomes `0xff000000 | r<<16 | g<<8 | b`. -/
def convert_BGR8_to_SColor (b g r : Nat) : Nat :=
  0xff000000 ||| (r <<< 16) ||| (g <<< 8) ||| b

/-- Per-entry form of `convert_BGRA8_to_SColor` (source lines 103-111): byte
order BGRA becomes `a<<24 | r<<16 | g<<8 | b`. -/
def convert_BGRA8_to_SColor (b g r a : Nat) : Nat :=
  (a <<< 24) ||| (r <<< 16) ||| (g <<< 8) ||| b

/-- The 32-bit palette: `size` entries were allocated (`new u32[paletteSize]`,
uninitialised), and `entries i = none` models a slot that was never written
(`new u32[]` does not zero memory). -/
structure Palette where
  size : Nat
  entries : Nat → Option Nat

/-- The colour-map ingestion of `loadImage` (source lines 136-166), invoked
when `header.ColorMapType` is nonzero, reading from stream position `pos`.
`paletteSize = MAX((u16)256u, header.ColorMapLength)`; slots in
`[ColorMapLength, paletteSize)` are pre-filled with `errorCol`; then
`ColorMapEntrySize / 8 * ColorMapLength` raw bytes are read and converted by
entry size: 16-bit entries through the external
`CColorConverter::convert_A1R5G5B5toA8R8G8B8` (not part of this repository's
sources, so it is passed in as the function `conv16` applied to each
little-endian 16-bit entry), 24-bit through `convert_BGR8_to_SColor`, 32-bit
through `convert_BGRA8_to_SColor`; any other entry size matches no `switch`
case and leaves slots `[0, ColorMapLength)` unwritten.  Bytes the stream
cannot supply are modelled as 0 (the theorems below assume the stream holds
the declared map).  Returns the palette and the new stream position. -/
def buildPalette (conv16 : Nat → Nat) (s : TGAStream) (pos : Nat) (header : STGAHeader) :
    Palette × Nat :=
  let paletteSize := max 256 header.ColorMapLength
  let base : Nat → Option Nat := fun i =>
    if header.ColorMapLength ≤ i ∧ i < paletteSize then some errorCol else none
  let mapBytes := header.ColorMapEntrySize / 8 * header.ColorMapLength
  let k := readCount s pos mapBytes
  let colorMap : Nat → Nat := fun j => if j < k then s.byteAt (pos + j) % 256 else 0
  let entries : Nat → Option Nat :=
    if header.ColorMapEntrySize = 16 then
      fun i => if i < header.ColorMapLength then
        some (conv16 (colorMap (2 * i) + 256 * colorMap (2 * i + 1))) else base i
    else if header.ColorMapEntrySize = 24 then
      fun i => if i < header.ColorMapLength then
        some (convert_BGR8_to_SColor (colorMap (3 * i)) (colorMap (3 * i + 1))
          (colorMap (3 * i + 2))) else base i
    else if header.ColorMapEntrySize = 32 then
      fun i => if i < header.ColorMapLength then
        some (convert_BGRA8_to_SColor (colorMap (4 * i)) (colorMap (4 * i + 1))
          (colorMap (4 * i + 2)) (colorMap (4 * i + 3))) else base i
    else base
  (⟨paletteSize, entries⟩, pos + k)

/-- Output pixel formats of the depth dispatch (`ECOLOR_FORMAT` values the
loader uses). -/
inductive ECOLOR_FORMAT where
  | ECF_A1R5G5B5
  | ECF_R8G8B8
  | ECF_A8R8G8B8
deriving Repr, DecidableEq

/-- Heap allocation / deallocation events of one `loadImage` call, in
program order.  A `delete[]` on a null pointer performs no deallocation and
records no event. -/
inductive AllocEvent where
  | allocPalette
  | freePalette
  | allocData
  | freeData
deriving Repr, DecidableEq

/-- The bitmap `loadImage` hands back: the chosen output format, the
dimensions, whether the row-flipping variant of the external colour
converter was requested (the `(header.ImageDescriptor & 0x20) == 0`
argument), and whether the conversion is the palette-lookup path
(`convert8BitTo32Bit` with the palette pointer). -/
structure ImageDesc where
  format : ECOLOR_FORMAT
  width : Nat
  height : Nat
  flipRows : Bool
  viaPalette : Bool
deriving Repr, DecidableEq

/-- Outcome of one `loadImage` call. -/
structure LoadOutcome where
  image : Option ImageDesc
  events : List AllocEvent
  logs : List LogMsg

/-- Modelled from the spec: `checkImageDimensions` is declared outside this
repository's sources (only its call at line 127 is here); the spec says it
validates that width and height are each within the configured maximum. -/
def checkImageDimensions (maxDim w hgt : Nat) : Bool :=
  w ≤ maxDim && hgt ≤ maxDim

/-- The depth `switch` at the end of `loadImage` (source lines 190-237) plus
the trailing `delete[] data; delete[] palette;` (lines 239-240): chooses the
output format from `PixelDepth` alone (and `ImageType == 3` for depth 8),
passes `(ImageDescriptor & 0x20) == 0` as the flip argument of every
converter, logs and leaves the image null on any other depth. -/
def finishConvert (header : STGAHeader) (palAllocated : Bool) (ev : List AllocEvent)
    (logs : List LogMsg) : LoadOutcome :=
  let flip := decide (header.ImageDescriptor &&& 0x20 = 0)
  let img : Option ImageDesc :=
    if header.PixelDepth = 8 then
      if header.ImageType = 3 then
        some ⟨ECOLOR_FORMAT.ECF_R8G8B8, header.ImageWidth, header.ImageHeight, flip, false⟩
      else
        some ⟨ECOLOR_FORMAT.ECF_A8R8G8B8, header.ImageWidth, header.ImageHeight, flip, true⟩
    else if header.PixelDepth = 16 then
      some ⟨ECOLOR_FORMAT.ECF_A1R5G5B5, header.ImageWidth, header.ImageHeight, flip, false⟩
    else if header.PixelDepth = 24 then
      some ⟨ECOLOR_FORMAT.ECF_R8G8B8, header.ImageWidth, header.ImageHeight, flip, false⟩
    else if header.PixelDepth = 32 then
      some ⟨ECOLOR_FORMAT.ECF_A8R8G8B8, header.ImageWidth, header.ImageHeight, flip, false⟩
    else none
  { image := img
    events := ev ++ [AllocEvent.freeData] ++ (if palAllocated then [AllocEvent.freePalette] else [])
    logs := if img.isNone then logs ++ [LogMsg.unsupportedFormat] else logs }

/-- `CImageLoaderTGA::loadImage` (source lines 114-243), from the parsed
header onward (the 18-byte packed header record has already been read from
the stream at line 119, and the big-endian byteswap is a no-op on the
little-endian targets modelled here); `s` is the stream content following
the header record.  Order of operations, as in the source: dimension check
(line 127) before anything is allocated; relative seek over the
identification field (lines 133-134); palette construction when
`ColorMapType` is set (lines 136-166); pixel read by image type — bulk read
for types 1/2/3, `loadCompressedImage` for type 10, and for any other type a
diagnostic, `delete[] palette`, and a null return (lines 172-186); finally
the depth dispatch and the trailing deletes. -/
def loadImage (conv16 : Nat → Nat) (maxDim : Nat) (header : STGAHeader) (s : TGAStream) :
    LoadOutcome :=
  if !checkImageDimensions maxDim header.ImageWidth header.ImageHeight then
    { image := none, events := [], logs := [LogMsg.dimsTooLarge] }
  else
    let pos0 := header.IdLength
    let palStep : Bool × Nat × List AllocEvent :=
      if header.ColorMapType ≠ 0 then
        (true, (buildPalette conv16 s pos0 header).2, [AllocEvent.allocPalette])
      else (false, pos0, [])
    let palAllocated := palStep.1
    let pos1 := palStep.2.1
    let ev1 := palStep.2.2
    if header.ImageType = 1 ∨ header.ImageType = 2 ∨ header.ImageType = 3 then
      let imageSize := (header.ImageHeight * header.ImageWidth * (header.PixelDepth / 8)) % U32
      let _pos2 := pos1 + readCount s pos1 imageSize
      finishConvert header palAllocated (ev1 ++ [AllocEvent.allocData]) []
    else if header.ImageType = 10 then
      let _rle := loadCompressedImage ⟨s.len - pos1, fun p => s.byteAt (pos1 + p)⟩ header
        (fun _ => 0)
      finishConvert header palAllocated (ev1 ++ [AllocEvent.allocData]) []
    else
      { image := none
        events := ev1 ++ (if palAllocated then [AllocEvent.freePalette] else [])
        logs := [LogMsg.unsupportedType] }

/-- A concrete byte stream built from a list (used by witnesses and
counterexamples). -/
def mkStream (bs : List Nat) : TGAStream :=
  ⟨bs.length, fun p => bs.getD p 0⟩

/-- The 17 ASCII character codes of `"TRUEVISION-XFILE."`. -/
def signatureChars : List Nat :=
  [84, 82, 85, 69, 86, 73, 83, 73, 79, 78, 45, 88, 70, 73, 76, 69, 46]

/-- `strcmp(a, b) == 0` on byte sequences: compare position by position,
succeeding only at a common NUL (or the common end of the arrays compared
here, which never happens before a NUL of the literal). -/
def strcmpEq : List Nat → List Nat → Bool
  | x :: xs, y :: ys => x == y && (x == 0 || strcmpEq xs ys)
  | _, _ => true

/-- Modelled from the spec: `sizeof(STGAFooter)` — the footer record is
declared in the missing header `CImageLoaderTGA.h`; per the spec it is 26
bytes ending in the 18-byte signature field. -/
def footerSize : Nat := 26

/-- `CImageLoaderTGA::isALoadableFileFormat` (source lines 82-92): null
stream fails; otherwise the footer is read from `getSize() - sizeof(STGAFooter)`
and the 18-byte `Signature` field (the last 18 bytes of the file) is
compared by `strcmp` against `"TRUEVISION-XFILE."`.  A file shorter than the
footer is modelled from the spec as failing closed (the seek/read
primitives, which are outside this repository's sources, transfer nothing
and leave the `memset`-zeroed footer in place, so the comparison fails). -/
def isALoadableFileFormat : Option TGAStream → Bool
  | none => false
  | some f =>
    if f.len < footerSize then false
    else strcmpEq ((List.range 18).map fun i => f.byteAt (f.len - 18 + i) % 256)
      (signatureChars ++ [0])

/-! ### Basic facts about the run-packet repetition loop -/

theorem chunkOf_lt (s : TGAStream) (p : Nat) : chunkOf s p < 256 := by
  unfold chunkOf
  split
  · exact Nat.mod_lt _ (by norm_num)
  · norm_num

theorem runCopyStep_currentByte (bpp iS d : Nat) (st : RLEState) :
    (runCopyStep bpp iS d st).currentByte = (st.currentByte + bpp) % U32 := by
  unfold runCopyStep
  split <;> rfl

theorem runCopyStep_pos (bpp iS d : Nat) (st : RLEState) :
    (runCopyStep bpp iS d st).pos = st.pos := by
  unfold runCopyStep
  split <;> rfl

theorem runCopyStep_logs (bpp iS d : Nat) (st : RLEState) :
    (runCopyStep bpp iS d st).logs = st.logs := by
  unfold runCopyStep
  split <;> rfl

theorem runCopyStep_fuelOut (bpp iS d : Nat) (st : RLEState) :
    (runCopyStep bpp iS d st).fuelOut = st.fuelOut := by
  unfold runCopyStep
  split <;> rfl

theorem runCopyStep_writes_mono (bpp iS d : Nat) (st : RLEState) :
    ∃ l, (runCopyStep bpp iS d st).writes = st.writes ++ l := by
  unfold runCopyStep
  split
  · exact ⟨_, rfl⟩
  · exact ⟨[], by simp⟩

theorem runCopies_pos (bpp iS d : Nat) :
    ∀ (k : Nat) (st : RLEState), (runCopies bpp iS d k st).pos = st.pos := by
  intro k
  induction k with
  | zero => intro st; rfl
  | succ k ih => intro st; rw [runCopies, ih, runCopyStep_pos]

theorem runCopies_logs (bpp iS d : Nat) :
    ∀ (k : Nat) (st : RLEState), (runCopies bpp iS d k st).logs = st.logs := by
  intro k
  induction k with
  | zero => intro st; rfl
  | succ k ih => intro st; rw [runCopies, ih, runCopyStep_logs]

theorem runCopies_fuelOut (bpp iS d : Nat) :
    ∀ (k : Nat) (st : RLEState), (runCopies bpp iS d k st).fuelOut = st.fuelOut := by
  intro k
  induction k with
  | zero => intro st; rfl
  | succ k ih => intro st; rw [runCopies, ih, runCopyStep_fuelOut]

theorem runCopies_writes_mono (bpp iS d : Nat) :
    ∀ (k : Nat) (st : RLEState), ∃ l, (runCopies bpp iS d k st).writes = st.writes ++ l := by
  intro k
  induction k with
  | zero => intro st; exact ⟨[], by simp [runCopies]⟩
  | succ k ih =>
    intro st
    obtain ⟨l₁, h₁⟩ := runCopyStep_writes_mono bpp iS d st
    obtain ⟨l₂, h₂⟩ := ih (runCopyStep bpp iS d st)
    exact ⟨l₁ ++ l₂, by rw [runCopies, h₂, h₁, List.append_assoc]⟩

theorem runCopies_currentByte (bpp iS d : Nat) :
    ∀ (k : Nat) (st : RLEState), st.currentByte + bpp * k < U32 →
      (runCopies bpp iS d k st).currentByte = st.currentByte + bpp * k := by
  intro k
  induction k with
  | zero => intro st _; simp [runCopies]
  | succ k ih =>
    intro st hlt
    have hstep : (runCopyStep bpp iS d st).currentByte = st.currentByte + bpp := by
      rw [runCopyStep_currentByte]
      exact Nat.mod_eq_of_lt (by nlinarith [Nat.le_refl bpp])
    rw [runCopies, ih _ (by rw [hstep]; ring_nf; ring_nf at hlt; omega), hstep]
    ring

/-- Splitting the repetition loop: running `a + b` iterations is running `a`
then `b`. -/
theorem runCopies_add (bpp iS d : Nat) :
    ∀ (a b : Nat) (st : RLEState),
      runCopies bpp iS d (a + b) st = runCopies bpp iS d b (runCopies bpp iS d a st) := by
  intro a
  induction a with
  | zero => intro b st; simp [runCopies, Nat.zero_add]
  | succ a ih =>
    intro b st
    have h : a + 1 + b = (a + b) + 1 := by omega
    rw [h, runCopies, ih, runCopies]

/-- Sequential semantics of the inner byte-copy loop in the non-aliasing,
non-wrapping regime: it copies the `n` bytes at `[d, d + n)` to
`[c, c + n)`. -/
theorem copyBytes_eq (d c : Nat) :
    ∀ (n : Nat) (buf : Nat → Nat), d + n ≤ c → c + n ≤ U32 →
      ∀ o, copyBytes d c n buf o =
        if c ≤ o ∧ o < c + n then buf (d + (o - c)) else buf o := by
  intro n
  induction n with
  | zero =>
    intro buf _ _ o
    simp only [copyBytes]
    rw [if_neg (by omega)]
  | succ n ih =>
    intro buf hdc hcU o
    have hcn : (c + n) % U32 = c + n := Nat.mod_eq_of_lt (by omega)
    have hdn : (d + n) % U32 = d + n := Nat.mod_eq_of_lt (by omega)
    simp only [copyBytes, hcn, hdn]
    by_cases ho : o = c + n
    · subst ho
      rw [if_pos rfl, ih buf (by omega) (by omega) (d + n)]
      rw [if_neg (by omega), if_pos (by omega)]
      congr 1
      omega
    · rw [if_neg ho, ih buf (by omega) (by omega) o]
      by_cases hin : c ≤ o ∧ o < c + n
      · rw [if_pos hin, if_pos (by omega)]
      · rw [if_neg hin, if_neg (by omega)]

/-- Closed form of the repetition loop when every step's bound check passes
and no u32 wrap occurs: the offset advances by `bpp` per step, the sample at
`[d, d + bpp)` is replicated into the `k` successive slots, everything below
the starting offset is untouched, and the write log only grows. -/
theorem runCopies_pass (bpp iS d : Nat) :
    ∀ (k : Nat) (st : RLEState),
      d + bpp ≤ st.currentByte →
      st.currentByte + bpp * k ≤ iS →
      st.currentByte + bpp * k < U32 →
      (runCopies bpp iS d k st).currentByte = st.currentByte + bpp * k ∧
      (∀ o, o < st.currentByte → (runCopies bpp iS d k st).buf o = st.buf o) ∧
      (∀ i e, i < k → e < bpp →
        (runCopies bpp iS d k st).buf (st.currentByte + i * bpp + e) = st.buf (d + e)) := by
  intro k
  induction k with
  | zero =>
    intro st _ _ _
    refine ⟨by simp [runCopies], fun o _ => rfl, fun i e hi _ => absurd hi (by omega)⟩
  | succ k ih =>
    intro st hd hbound hlt
    have hb1 : bpp ≤ bpp * (k + 1) := Nat.le_mul_of_pos_right bpp (by omega)
    have hguard : (st.currentByte + bpp) % U32 ≤ iS := by
      rw [Nat.mod_eq_of_lt (by omega)]
      omega
    have hstep : runCopyStep bpp iS d st =
        { st with
          buf := copyBytes d st.currentByte bpp st.buf
          writes := st.writes ++ (List.range bpp).map (fun e => (st.currentByte + e) % U32)
          currentByte := st.currentByte + bpp } := by
      rw [runCopyStep, if_pos hguard, Nat.mod_eq_of_lt (by omega)]
    obtain ⟨ihc, ihlow, ihcopy⟩ := ih (runCopyStep bpp iS d st)
      (by rw [hstep]; simp; omega)
      (by rw [hstep]; simp; ring_nf; ring_nf at hbound; omega)
      (by rw [hstep]; simp; ring_nf; ring_nf at hlt; omega)
    have hcopy_eq : ∀ o, copyBytes d st.currentByte bpp st.buf o =
        if st.currentByte ≤ o ∧ o < st.currentByte + bpp then st.buf (d + (o - st.currentByte))
        else st.buf o :=
      copyBytes_eq d st.currentByte bpp st.buf hd (by omega)
    rw [runCopies]
    refine ⟨?_, ?_, ?_⟩
    · rw [ihc, hstep]
      simp
      ring
    · intro o ho
      rw [ihlow o (by rw [hstep]; simp; omega), hstep]
      simp only
      rw [hcopy_eq o, if_neg (by omega)]
    · intro i e hi he
      match i with
      | 0 =>
        have harg : st.currentByte + 0 * bpp + e = st.currentByte + e := by ring
        rw [harg, ihlow _ (by rw [hstep]; simp; omega), hstep]
        simp only
        rw [hcopy_eq _, if_pos (by omega)]
        congr 1
        omega
      | i + 1 =>
        have harg : st.currentByte + (i + 1) * bpp + e =
            (runCopyStep bpp iS d st).currentByte + i * bpp + e := by
          rw [hstep]; simp; ring
        rw [harg, ihcopy i e (by omega) he, hstep]
        simp only
        rw [hcopy_eq _, if_neg (by omega)]

/-- Every store the repetition loop performs lands strictly below `iS`,
provided the offsets involved cannot wrap. -/
theorem runCopies_writes_lt (bpp iS d : Nat) :
    ∀ (k : Nat) (st : RLEState),
      st.currentByte + bpp * k < U32 →
      (∀ o ∈ st.writes, o < iS) →
      ∀ o ∈ (runCopies bpp iS d k st).writes, o < iS := by
  intro k
  induction k with
  | zero => intro st _ hw; exact hw
  | succ k ih =>
    intro st hlt hw
    have hb1 : bpp ≤ bpp * (k + 1) := Nat.le_mul_of_pos_right bpp (by omega)
    have hcb : (runCopyStep bpp iS d st).currentByte = st.currentByte + bpp := by
      rw [runCopyStep_currentByte]
      exact Nat.mod_eq_of_lt (by omega)
    refine ih (runCopyStep bpp iS d st) (by rw [hcb]; ring_nf; ring_nf at hlt; omega) ?_
    unfold runCopyStep
    split
    · rename_i hguard
      simp only [List.mem_append, List.mem_map, List.mem_range]
      rintro o (ho | ⟨e, he, rfl⟩)
      · exact hw o ho
      · rw [Nat.mod_eq_of_lt (by omega)] at hguard ⊢
        omega
    · exact hw

/-! ### Facts about one packet-loop iteration and the fuelled loop -/

theorem rleIter_inr_writes (s : TGAStream) (bpp iS : Nat) (st st' : RLEState)
    (h : rleIter s bpp iS st = Sum.inr st') : st'.writes = st.writes := by
  unfold rleIter at h
  split_ifs at h <;> simp only [Sum.inr.injEq] at h <;> rw [← h]

theorem rleIter_inr_fuelOut (s : TGAStream) (bpp iS : Nat) (st st' : RLEState)
    (h : rleIter s bpp iS st = Sum.inr st') : st'.fuelOut = st.fuelOut := by
  unfold rleIter at h
  split_ifs at h <;> simp only [Sum.inr.injEq] at h <;> rw [← h]

theorem rleIter_inl_writes (s : TGAStream) (bpp iS : Nat) (st st' : RLEState)
    (h : rleIter s bpp iS st = Sum.inl st') : ∃ l, st'.writes = st.writes ++ l := by
  unfold rleIter at h
  split_ifs at h <;> simp only [Sum.inl.injEq] at h
  · exact ⟨_, by rw [← h]⟩
  · obtain ⟨l, hl⟩ := runCopies_writes_mono bpp iS st.currentByte (chunkOf s st.pos - 127 - 1)
      ⟨writeFromStream s (posAfterHeader s st.pos) st.currentByte
          (readCount s (posAfterHeader s st.pos) bpp) st.buf,
        st.writes ++ (List.range (readCount s (posAfterHeader s st.pos) bpp)).map
          (fun j => st.currentByte + j),
        (st.currentByte + bpp) % U32,
        posAfterHeader s st.pos + readCount s (posAfterHeader s st.pos) bpp,
        st.logs, st.fuelOut⟩
    rw [← h, hl]
    simp only [List.append_assoc]
    exact ⟨_, rfl⟩

theorem rleIter_inl_fuelOut (s : TGAStream) (bpp iS : Nat) (st st' : RLEState)
    (h : rleIter s bpp iS st = Sum.inl st') : st'.fuelOut = st.fuelOut := by
  unfold rleIter at h
  split_ifs at h <;> simp only [Sum.inl.injEq] at h
  · rw [← h]
  · rw [← h, runCopies_fuelOut]

/-- In the no-wrap regime, an iteration that falls through to the next loop
test advanced the output offset by at least `bpp`. -/
theorem rleIter_inl_advance (s : TGAStream) (bpp iS : Nat) (st st' : RLEState)
    (hov : iS + 128 * bpp ≤ U32) (hc : st.currentByte < iS)
    (h : rleIter s bpp iS st = Sum.inl st') : st.currentByte + bpp ≤ st'.currentByte := by
  have hch := chunkOf_lt s st.pos
  unfold rleIter at h
  split_ifs at h with h1 h2 h3 <;> simp only [Sum.inl.injEq] at h
  · -- raw chunk
    have hb : bpp * (chunkOf s st.pos + 1) ≤ 128 * bpp := by nlinarith
    have : (st.currentByte + bpp * (chunkOf s st.pos + 1)) % U32 =
        st.currentByte + bpp * (chunkOf s st.pos + 1) := Nat.mod_eq_of_lt (by omega)
    rw [← h]
    simp only
    rw [this]
    nlinarith
  · -- run chunk
    have hb : bpp ≤ 128 * bpp := by nlinarith
    have hmod : (st.currentByte + bpp) % U32 = st.currentByte + bpp :=
      Nat.mod_eq_of_lt (by omega)
    have hrun : bpp * (chunkOf s st.pos - 127 - 1) ≤ bpp * 127 :=
      Nat.mul_le_mul_left bpp (by omega)
    have hcb := runCopies_currentByte bpp iS st.currentByte (chunkOf s st.pos - 127 - 1)
      { buf := writeFromStream s (posAfterHeader s st.pos) st.currentByte
          (readCount s (posAfterHeader s st.pos) bpp) st.buf
        writes := st.writes ++
          (List.range (readCount s (posAfterHeader s st.pos) bpp)).map
            (fun j => st.currentByte + j)
        currentByte := (st.currentByte + bpp) % U32
        pos := posAfterHeader s st.pos + readCount s (posAfterHeader s st.pos) bpp
        logs := st.logs
        fuelOut := st.fuelOut }
      (by simp only; rw [hmod]; linarith)
    rw [← h, hcb]
    simp only
    rw [hmod]
    exact Nat.le_add_right _ _

/-- In the no-wrap regime, an iteration entered with all previous stores in
bounds leaves all stores in bounds. -/
theorem rleIter_inl_writes_lt (s : TGAStream) (bpp iS : Nat) (st st' : RLEState)
    (hov : iS + 128 * bpp ≤ U32) (hc : st.currentByte < iS)
    (hw : ∀ o ∈ st.writes, o < iS)
    (h : rleIter s bpp iS st = Sum.inl st') : ∀ o ∈ st'.writes, o < iS := by
  have hch := chunkOf_lt s st.pos
  unfold rleIter at h
  split_ifs at h with h1 h2 h3 <;> simp only [Sum.inl.injEq] at h
  · -- raw chunk: the guard passed without wrap, so every store is below iS
    have hb : bpp * (chunkOf s st.pos + 1) ≤ 128 * bpp := by nlinarith
    rw [Nat.mod_eq_of_lt (by omega)] at h2
    rw [← h]
    simp only [List.mem_append, List.mem_map]
    rintro o (ho | ⟨j, hj, rfl⟩)
    · exact hw o ho
    · have hk : j < bpp * (chunkOf s st.pos + 1) := by
        have := Nat.lt_of_lt_of_le (List.mem_range.mp hj)
          (Nat.min_le_left _ (s.len - posAfterHeader s st.pos))
        exact this
      omega
  · -- run chunk: sample stores are below iS, then the repetition lemma
    have hb : bpp ≤ 128 * bpp := by nlinarith
    rw [Nat.mod_eq_of_lt (by omega)] at h3
    have hrun : bpp * (chunkOf s st.pos - 127 - 1) ≤ bpp * 127 :=
      Nat.mul_le_mul_left bpp (by omega)
    rw [← h]
    refine runCopies_writes_lt bpp iS st.currentByte _ _
      (by simp only; rw [Nat.mod_eq_of_lt (by omega)]; linarith) ?_
    simp only [List.mem_append, List.mem_map]
    rintro o (ho | ⟨j, hj, rfl⟩)
    · exact hw o ho
    · have hk : j < bpp := Nat.lt_of_lt_of_le (List.mem_range.mp hj)
        (Nat.min_le_left _ (s.len - posAfterHeader s st.pos))
      omega

theorem rleLoop_writes_mono (s : TGAStream) (bpp iS : Nat) :
    ∀ (fuel : Nat) (st : RLEState),
      ∃ l, (rleLoop s bpp iS fuel st).writes = st.writes ++ l := by
  intro fuel
  induction fuel with
  | zero => intro st; exact ⟨[], by simp [rleLoop]⟩
  | succ fuel ih =>
    intro st
    rw [rleLoop]
    split
    · rcases hit : rleIter s bpp iS st with st' | st'
      · obtain ⟨l₁, h₁⟩ := rleIter_inl_writes s bpp iS st st' hit
        obtain ⟨l₂, h₂⟩ := ih st'
        exact ⟨l₁ ++ l₂, by rw [h₂, h₁, List.append_assoc]⟩
      · exact ⟨[], by rw [rleIter_inr_writes s bpp iS st st' hit, List.append_nil]⟩
    · exact ⟨[], by rw [List.append_nil]⟩

theorem rleLoop_writes_lt (s : TGAStream) (bpp iS : Nat) (hov : iS + 128 * bpp ≤ U32) :
    ∀ (fuel : Nat) (st : RLEState),
      (∀ o ∈ st.writes, o < iS) →
      ∀ o ∈ (rleLoop s bpp iS fuel st).writes, o < iS := by
  intro fuel
  induction fuel with
  | zero => intro st hw; exact hw
  | succ fuel ih =>
    intro st hw
    rw [rleLoop]
    split
    · rcases hit : rleIter s bpp iS st with st' | st'
      · exact ih st' (rleIter_inl_writes_lt s bpp iS st st' hov (by assumption) hw hit)
      · rw [rleIter_inr_writes s bpp iS st st' hit]
        exact hw
    · exact hw

/-- In the no-wrap regime the fuelled loop never exhausts
`iS - currentByte` units of fuel: it exits by its own condition or by
`break`. -/
theorem rleLoop_fuelOut (s : TGAStream) (bpp iS : Nat)
    (hov : iS + 128 * bpp ≤ U32) (hbpp : 1 ≤ bpp ∨ iS = 0) :
    ∀ (fuel : Nat) (st : RLEState),
      st.fuelOut = false → iS ≤ st.currentByte + fuel →
      (rleLoop s bpp iS fuel st).fuelOut = false := by
  intro fuel
  induction fuel with
  | zero =>
    intro st hf hle
    simp only [rleLoop]
    simp [hle]
    omega
  | succ fuel ih =>
    intro st hf hle
    rw [rleLoop]
    split
    · rcases hit : rleIter s bpp iS st with st' | st'
      · rcases hbpp with hbpp | hbpp
        · have hadv := rleIter_inl_advance s bpp iS st st' hov (by assumption) hit
          exact ih st' (by rw [rleIter_inl_fuelOut s bpp iS st st' hit]; exact hf) (by omega)
        · omega
      · rw [rleIter_inr_fuelOut s bpp iS st st' hit]
        exact hf
    · exact hf

/-! ### Claim theorems -/

/-- Claim C2 — evaluation of the code at the failing input.  The stream
`[128, 66]` is a well-formed RLE stream for a 1×1 8-bit image: a single run
packet (header byte 128, repetition count 1) whose one sample fills the
1-byte output exactly, ending at the buffer boundary.  The claim says every
packet is consumed and the buffer is completely filled; the code's sample
guard at line 58 uses `<` instead of `<=`, so it logs its
beyond-buffer warning and breaks with the offset still 0 and nothing
written. -/
theorem claim_C2_failing_input :
    (loadCompressedImage (mkStream [128, 66]) ⟨0, 0, 10, 0, 0, 0, 1, 1, 8, 0⟩
      (fun _ => 0)).currentByte = 0 ∧
    (loadCompressedImage (mkStream [128, 66]) ⟨0, 0, 10, 0, 0, 0, 1, 1, 8, 0⟩
      (fun _ => 0)).writes = [] ∧
    (loadCompressedImage (mkStream [128, 66]) ⟨0, 0, 10, 0, 0, 0, 1, 1, 8, 0⟩
      (fun _ => 0)).logs = [LogMsg.rleHeaderBeyond] := by
  refine ⟨?_, ?_, ?_⟩ <;> rfl

/-- Claim C3 — counterexample to the claim as stated.  For a 2×1 8-bit image
the stream `[130, 7]` is a run packet of repetition count 3, whose last
repeated-copy step would write past the 2-byte buffer.  The claim says the
decompressor then stops immediately at that point and emits a diagnostic;
instead the final state shows no diagnostic was ever emitted and the offset
ran on past the buffer size (to 3), the overflowing copy having been
silently skipped. -/
theorem claim_C3_counterexample :
    (loadCompressedImage (mkStream [130, 7]) ⟨0, 0, 10, 0, 0, 0, 2, 1, 8, 0⟩
      (fun _ => 0)).logs = [] ∧
    (loadCompressedImage (mkStream [130, 7]) ⟨0, 0, 10, 0, 0, 0, 2, 1, 8, 0⟩
      (fun _ => 0)).currentByte = 3 := by
  refine ⟨?_, ?_⟩ <;> rfl

/-- Claim C3 (amended): the stop-and-diagnose behaviour holds at the
raw-packet bulk copy and at the run-packet sample read — whenever the
guard fails the decompressor breaks at once, appends the corresponding
diagnostic, and changes nothing else of the state — while at a run
repeated-copy step whose bound check fails the copy is silently skipped:
nothing is stored, no diagnostic is emitted, decoding does not stop there,
and the offset still advances. -/
theorem claim_C3_amended (s : TGAStream) (bpp imageSize : Nat) (st : RLEState) :
    (chunkOf s st.pos < 128 →
      ¬((st.currentByte + bpp * (chunkOf s st.pos + 1)) % U32 ≤ imageSize) →
      rleIter s bpp imageSize st =
        Sum.inr { st with
          pos := posAfterHeader s st.pos
          logs := st.logs ++ [LogMsg.rawChunkBeyond] }) ∧
    (128 ≤ chunkOf s st.pos →
      ¬((st.currentByte + bpp) % U32 < imageSize) →
      rleIter s bpp imageSize st =
        Sum.inr { st with
          pos := posAfterHeader s st.pos
          logs := st.logs ++ [LogMsg.rleHeaderBeyond] }) ∧
    (∀ d : Nat, ¬((st.currentByte + bpp) % U32 ≤ imageSize) →
      runCopyStep bpp imageSize d st =
        { st with currentByte := (st.currentByte + bpp) % U32 }) := by
  refine ⟨?_, ?_, ?_⟩
  · intro h1 h2
    unfold rleIter
    rw [if_pos h1, if_neg h2]
  · intro h1 h2
    unfold rleIter
    rw [if_neg (by omega), if_neg h2]
  · intro d h
    unfold runCopyStep
    rw [if_neg h]

/-- Claim C3 witness: a raw packet for a 2×1 8-bit image claiming 3 literal
pixels fails its bound check, and the iteration breaks immediately with the
raw-chunk diagnostic and no store. -/
theorem claim_C3_amended_witness :
    rleIter (mkStream [2, 1, 2, 3]) 1 2 ⟨(fun _ => 0), [], 0, 0, [], false⟩ =
      Sum.inr ⟨(fun _ => 0), [], 0, 1, [LogMsg.rawChunkBeyond], false⟩ :=
  (claim_C3_amended (mkStream [2, 1, 2, 3]) 1 2 ⟨(fun _ => 0), [], 0, 0, [], false⟩).1
    (by decide) (by decide)

/-- Claim C5: when the declared dimensions fail the configured-maximum
check, `loadImage` returns the absent result immediately, with the
dimensions diagnostic and no allocation of any kind — in particular neither
the palette nor a pixel buffer is ever sized from the hostile fields. -/
theorem claim_C5_dims_checked_first (conv16 : Nat → Nat) (maxDim : Nat) (header : STGAHeader)
    (s : TGAStream)
    (h : checkImageDimensions maxDim header.ImageWidth header.ImageHeight = false) :
    loadImage conv16 maxDim header s =
      { image := none, events := [], logs := [LogMsg.dimsTooLarge] } := by
  unfold loadImage
  rw [h]
  rfl

/-- Claim C5 witness: the 65535×65535 header of the spec's test is rejected
with the dimensions diagnostic before any allocation. -/
theorem claim_C5_dims_checked_first_witness :
    loadImage (fun v => v) 23170 ⟨0, 1, 2, 0, 0, 0, 65535, 65535, 16, 0⟩ (mkStream []) =
      { image := none, events := [], logs := [LogMsg.dimsTooLarge] } :=
  claim_C5_dims_checked_first (fun v => v) 23170 ⟨0, 1, 2, 0, 0, 0, 65535, 65535, 16, 0⟩
    (mkStream []) (by decide)

/-- Claim C7: for an image type other than 1, 2, 3 or 10 (after the
dimension check passed), the whole decode fails with an absent result, the
unsupported-type diagnostic, and the palette — allocated exactly when the
header declared a colour map — released before returning; no pixel buffer
is allocated. -/
theorem claim_C7_unsupported_type (conv16 : Nat → Nat) (maxDim : Nat) (header : STGAHeader)
    (s : TGAStream)
    (hdim : checkImageDimensions maxDim header.ImageWidth header.ImageHeight = true)
    (h1 : header.ImageType ≠ 1) (h2 : header.ImageType ≠ 2) (h3 : header.ImageType ≠ 3)
    (h10 : header.ImageType ≠ 10) :
    loadImage conv16 maxDim header s =
      { image := none
        events := if header.ColorMapType ≠ 0 then
            [AllocEvent.allocPalette, AllocEvent.freePalette] else []
        logs := [LogMsg.unsupportedType] } := by
  unfold loadImage
  rw [hdim]
  by_cases hc : header.ColorMapType = 0 <;> simp [hc, h1, h2, h3, h10]

/-- Claim C7 witness: image type 4 with a declared colour map gives an
absent result with the palette allocated and then released. -/
theorem claim_C7_unsupported_type_witness :
    loadImage (fun v => v) 23170 ⟨0, 1, 4, 0, 0, 16, 3, 2, 8, 0⟩ (mkStream []) =
      { image := none
        events := [AllocEvent.allocPalette, AllocEvent.freePalette]
        logs := [LogMsg.unsupportedType] } := by
  have h := claim_C7_unsupported_type (fun v => v) 23170 ⟨0, 1, 4, 0, 0, 16, 3, 2, 8, 0⟩
    (mkStream []) (by decide) (by decide) (by decide) (by decide) (by decide)
  simpa using h

/-- In a NUL-terminated comparison against a literal with no interior NUL,
equality of the comparison is exact equality of the byte arrays. -/
theorem strcmpEq_exact (ys : List Nat) (hy : ∀ y ∈ ys, y ≠ 0) :
    ∀ xs : List Nat, xs.length = ys.length + 1 →
      (strcmpEq xs (ys ++ [0]) = true ↔ xs = ys ++ [0]) := by
  induction ys with
  | nil =>
    intro xs hlen
    match xs with
    | [x] => simp [strcmpEq]
  | cons y ys ih =>
    intro xs hlen
    match xs with
    | x :: xs =>
      have hy0 : y ≠ 0 := hy y (by simp)
      simp only [List.cons_append, strcmpEq]
      by_cases hxy : x = y
      · subst hxy
        have : (x == 0) = false := by
          simp [hy0]
        simp only [beq_self_eq_true, Bool.true_and, this, Bool.false_or, List.cons.injEq,
          true_and]
        exact ih (fun z hz => hy z (by simp [hz])) xs (by simpa using hlen)
      · simp [hxy]

/-- Claim C9: the signature sniff accepts exactly the streams that are at
least a footer long and whose final 18 bytes are the ASCII characters of
`"TRUEVISION-XFILE."` followed by the terminating NUL — an exact 18-byte
match, not a prefix match — and fails closed on a null stream, a short
stream, or any differing byte. -/
theorem claim_C9_signature (os : Option TGAStream) :
    isALoadableFileFormat os = true ↔
      ∃ f, os = some f ∧ footerSize ≤ f.len ∧
        (List.range 18).map (fun i => f.byteAt (f.len - 18 + i) % 256) =
          signatureChars ++ [0] := by
  cases os with
  | none => simp [isALoadableFileFormat]
  | some f =>
    simp only [isALoadableFileFormat]
    by_cases hlen : f.len < footerSize
    · rw [if_pos hlen]
      constructor
      · intro h
        cases h
      · rintro ⟨f', hf', hle, _⟩
        cases hf'
        omega
    · rw [if_neg hlen]
      rw [strcmpEq_exact signatureChars (by decide) _ (by simp [signatureChars])]
      constructor
      · intro h
        exact ⟨f, rfl, by omega, h⟩
      · rintro ⟨f', hf', _, h⟩
        cases hf'
        exact h

/-- Claim C6 — counterexample to the claim as stated.  A declared colour map
of length 1 with entry size 15 (a legal on-disk value): the claim says index
0 then holds the source entry expanded by the 1-bit-alpha/5-5-5 rule, but
the conversion `switch` has cases only for 16, 24 and 32 bits, so the slot
is never written. -/
theorem claim_C6_counterexample :
    (buildPalette (fun v => v) (mkStream [205, 12]) 0
      ⟨0, 1, 1, 0, 1, 15, 1, 1, 8, 0⟩).1.entries 0 = none := by
  decide

/-- Claim C6 (amended): for a header with the colour-map flag set, given
that the stream supplies the declared map bytes, the palette has length
`max 256 declaredLength`; every index of `[declaredLength, 256)` holds the
sentinel magenta; and every index of `[0, declaredLength)` holds the source
entry converted according to the declared entry size for entry sizes 16
(through the external 1-bit-alpha/5-5-5 expander, applied to the
little-endian 16-bit entry), 24 (`0xff000000 | r<<16 | g<<8 | b` from
byte-order BGR) and 32 (`a<<24 | r<<16 | g<<8 | b` from byte-order BGRA);
any other entry size (15 included) leaves those slots unwritten. -/
theorem claim_C6_palette (conv16 : Nat → Nat) (s : TGAStream) (pos : Nat)
    (header : STGAHeader)
    (henough : pos + header.ColorMapEntrySize / 8 * header.ColorMapLength ≤ s.len) :
    (buildPalette conv16 s pos header).1.size = max 256 header.ColorMapLength ∧
    (∀ i, header.ColorMapLength ≤ i → i < 256 →
      (buildPalette conv16 s pos header).1.entries i = some errorCol) ∧
    (header.ColorMapEntrySize = 16 → ∀ i < header.ColorMapLength,
      (buildPalette conv16 s pos header).1.entries i =
        some (conv16 (s.byteAt (pos + 2 * i) % 256 +
          256 * (s.byteAt (pos + (2 * i + 1)) % 256)))) ∧
    (header.ColorMapEntrySize = 24 → ∀ i < header.ColorMapLength,
      (buildPalette conv16 s pos header).1.entries i =
        some (convert_BGR8_to_SColor (s.byteAt (pos + 3 * i) % 256)
          (s.byteAt (pos + (3 * i + 1)) % 256) (s.byteAt (pos + (3 * i + 2)) % 256))) ∧
    (header.ColorMapEntrySize = 32 → ∀ i < header.ColorMapLength,
      (buildPalette conv16 s pos header).1.entries i =
        some (convert_BGRA8_to_SColor (s.byteAt (pos + 4 * i) % 256)
          (s.byteAt (pos + (4 * i + 1)) % 256) (s.byteAt (pos + (4 * i + 2)) % 256)
          (s.byteAt (pos + (4 * i + 3)) % 256))) := by
  have hk : readCount s pos (header.ColorMapEntrySize / 8 * header.ColorMapLength) =
      header.ColorMapEntrySize / 8 * header.ColorMapLength := by
    unfold readCount
    omega
  refine ⟨rfl, ?_, ?_, ?_, ?_⟩
  · intro i hi hi256
    unfold buildPalette
    simp only [hk]
    split_ifs with h16 h24 h32 <;>
      simp only [if_neg (by omega : ¬i < header.ColorMapLength)] <;>
      rw [if_pos (by constructor <;> omega)]
  · intro h16 i hi
    have hk2 : readCount s pos (2 * header.ColorMapLength) = 2 * header.ColorMapLength := by
      rw [h16] at henough
      norm_num at henough
      unfold readCount
      omega
    simp only [buildPalette, h16]
    norm_num
    rw [if_pos hi, hk2, if_pos (by omega), if_pos (by omega)]
  · intro h24 i hi
    have hk2 : readCount s pos (3 * header.ColorMapLength) = 3 * header.ColorMapLength := by
      rw [h24] at henough
      norm_num at henough
      unfold readCount
      omega
    simp only [buildPalette, h24]
    norm_num
    rw [if_pos hi, hk2, if_pos (by omega), if_pos (by omega), if_pos (by omega)]
  · intro h32 i hi
    have hk2 : readCount s pos (4 * header.ColorMapLength) = 4 * header.ColorMapLength := by
      rw [h32] at henough
      norm_num at henough
      unfold readCount
      omega
    simp only [buildPalette, h32]
    norm_num
    rw [if_pos hi, hk2, if_pos (by omega), if_pos (by omega), if_pos (by omega),
      if_pos (by omega)]

/-- Claim C6 witness: a 24-bit map of declared length 1 whose single entry
is the bytes `[205, 0, 255]` decodes to opaque magenta at index 0, and
index 10 holds the sentinel. -/
theorem claim_C6_palette_witness :
    (buildPalette (fun v => v) (mkStream [205, 0, 255]) 0
      ⟨0, 1, 1, 0, 1, 24, 1, 1, 8, 0⟩).1.entries 0 =
        some (convert_BGR8_to_SColor 205 0 255) ∧
    (buildPalette (fun v => v) (mkStream [205, 0, 255]) 0
      ⟨0, 1, 1, 0, 1, 24, 1, 1, 8, 0⟩).1.entries 10 = some errorCol := by
  obtain ⟨hsize, hsent, h16, h24, h32⟩ := claim_C6_palette (fun v => v)
    (mkStream [205, 0, 255]) 0 ⟨0, 1, 1, 0, 1, 24, 1, 1, 8, 0⟩ (by decide)
  exact ⟨by simpa using h24 rfl 0 (by decide), hsent 10 (by decide) (by decide)⟩

/-- Claim C8: with the dimensions accepted and a supported image type, the
output format is chosen purely by pixel depth (and, at depth 8, by whether
the type is grey): depth 8 grey gives 24-bit RGB, depth 8 otherwise gives
32-bit ARGB through the palette, depth 16 gives ARGB1555, depth 24 gives
24-bit RGB, depth 32 gives 32-bit ARGB; every conversion receives the
row-flip flag exactly when descriptor bit 0x20 is clear; any other depth
yields an absent result with the unsupported-format diagnostic. -/
theorem claim_C8_depth_dispatch (conv16 : Nat → Nat) (maxDim : Nat) (header : STGAHeader)
    (s : TGAStream)
    (hdim : checkImageDimensions maxDim header.ImageWidth header.ImageHeight = true)
    (htype : header.ImageType = 1 ∨ header.ImageType = 2 ∨ header.ImageType = 3 ∨
      header.ImageType = 10) :
    ((header.PixelDepth = 8 ∧ header.ImageType = 3) →
      (loadImage conv16 maxDim header s).image =
        some ⟨ECOLOR_FORMAT.ECF_R8G8B8, header.ImageWidth, header.ImageHeight,
          decide (header.ImageDescriptor &&& 0x20 = 0), false⟩) ∧
    ((header.PixelDepth = 8 ∧ header.ImageType ≠ 3) →
      (loadImage conv16 maxDim header s).image =
        some ⟨ECOLOR_FORMAT.ECF_A8R8G8B8, header.ImageWidth, header.ImageHeight,
          decide (header.ImageDescriptor &&& 0x20 = 0), true⟩) ∧
    (header.PixelDepth = 16 →
      (loadImage conv16 maxDim header s).image =
        some ⟨ECOLOR_FORMAT.ECF_A1R5G5B5, header.ImageWidth, header.ImageHeight,
          decide (header.ImageDescriptor &&& 0x20 = 0), false⟩) ∧
    (header.PixelDepth = 24 →
      (loadImage conv16 maxDim header s).image =
        some ⟨ECOLOR_FORMAT.ECF_R8G8B8, header.ImageWidth, header.ImageHeight,
          decide (header.ImageDescriptor &&& 0x20 = 0), false⟩) ∧
    (header.PixelDepth = 32 →
      (loadImage conv16 maxDim header s).image =
        some ⟨ECOLOR_FORMAT.ECF_A8R8G8B8, header.ImageWidth, header.ImageHeight,
          decide (header.ImageDescriptor &&& 0x20 = 0), false⟩) ∧
    (header.PixelDepth ≠ 8 → header.PixelDepth ≠ 16 → header.PixelDepth ≠ 24 →
      header.PixelDepth ≠ 32 →
      (loadImage conv16 maxDim header s).image = none ∧
      LogMsg.unsupportedFormat ∈ (loadImage conv16 maxDim header s).logs) := by
  obtain ⟨pal, ev, heq⟩ : ∃ pal ev, loadImage conv16 maxDim header s =
      finishConvert header pal ev [] := by
    by_cases hc : header.ColorMapType = 0
    · refine ⟨false, [AllocEvent.allocData], ?_⟩
      unfold loadImage
      rw [hdim]
      rcases htype with ht | ht | ht | ht <;> simp [hc, ht]
    · refine ⟨true, [AllocEvent.allocPalette, AllocEvent.allocData], ?_⟩
      unfold loadImage
      rw [hdim]
      rcases htype with ht | ht | ht | ht <;> simp [hc, ht]
  rw [heq]
  refine ⟨?_, ?_, ?_, ?_, ?_, ?_⟩
  · rintro ⟨hd, ht3⟩
    simp [finishConvert, hd, ht3]
  · rintro ⟨hd, ht3⟩
    simp [finishConvert, hd, ht3]
  · intro hd
    simp [finishConvert, hd]
  · intro hd
    simp [finishConvert, hd]
  · intro hd
    simp [finishConvert, hd]
  · intro h8 h16 h24 h32
    simp [finishConvert, h8, h16, h24, h32]

/-- Claim C8 witness: an uncompressed 16-bit image stored bottom-up (bit
0x20 clear) is dispatched to ARGB1555 with the row flip requested. -/
theorem claim_C8_depth_dispatch_witness :
    (loadImage (fun v => v) 23170 ⟨0, 0, 2, 0, 0, 0, 1, 1, 16, 0⟩ (mkStream [1, 2])).image =
      some ⟨ECOLOR_FORMAT.ECF_A1R5G5B5, 1, 1, true, false⟩ := by
  have h := (claim_C8_depth_dispatch (fun v => v) 23170 ⟨0, 0, 2, 0, 0, 0, 1, 1, 16, 0⟩
    (mkStream [1, 2]) (by decide) (Or.inr (Or.inl rfl))).2.2.1 rfl
  simpa using h

/-- Claim C1 (amended): whenever the image byte size is small enough that
the decompressor's 32-bit offset arithmetic cannot wrap
(`width×height×bytesPerPixel + 128×bytesPerPixel ≤ 2^32`), the allocated
buffer has exactly `width×height×bytesPerPixel` bytes and every store
performed by the raw-packet bulk copy, the run-packet sample read and each
run repeated-copy step lands at an offset strictly below that size, for
every input stream — malformed and truncated ones included. -/
theorem claim_C1_stores_in_bounds (s : TGAStream) (header : STGAHeader) (buf0 : Nat → Nat)
    (hov : header.ImageHeight * header.ImageWidth * (header.PixelDepth / 8) +
      128 * (header.PixelDepth / 8) ≤ U32) :
    (loadCompressedImage s header buf0).size =
      header.ImageHeight * header.ImageWidth * (header.PixelDepth / 8) ∧
    ∀ o ∈ (loadCompressedImage s header buf0).writes,
      o < (loadCompressedImage s header buf0).size := by
  have hPlt : (header.ImageHeight * header.ImageWidth * (header.PixelDepth / 8)) % U32 =
      header.ImageHeight * header.ImageWidth * (header.PixelDepth / 8) := by
    rcases Nat.eq_zero_or_pos (header.PixelDepth / 8) with h0 | h1
    · rw [h0]
      simp [U32]
    · have : 128 ≤ 128 * (header.PixelDepth / 8) := by omega
      exact Nat.mod_eq_of_lt (by omega)
  constructor
  · show (header.ImageHeight * header.ImageWidth * (header.PixelDepth / 8)) % U32 = _
    exact hPlt
  · have h := rleLoop_writes_lt s (header.PixelDepth / 8)
      ((header.ImageHeight * header.ImageWidth * (header.PixelDepth / 8)) % U32)
      (by rw [hPlt]; exact hov)
      (s.len + (header.ImageHeight * header.ImageWidth * (header.PixelDepth / 8)) % U32 + 1)
      ⟨buf0, [], 0, 0, [], false⟩
      (by intro o ho; simp at ho)
    exact h

/-- Claim C1 witness: a 2×1 8-bit image decoded from the run packet
`[129, 66]` allocates 2 bytes and stores only at offsets below 2. -/
theorem claim_C1_stores_in_bounds_witness :
    (loadCompressedImage (mkStream [129, 66]) ⟨0, 0, 10, 0, 0, 0, 2, 1, 8, 0⟩
      (fun _ => 0)).size = 1 * 2 * (8 / 8) ∧
    ∀ o ∈ (loadCompressedImage (mkStream [129, 66]) ⟨0, 0, 10, 0, 0, 0, 2, 1, 8, 0⟩
      (fun _ => 0)).writes,
      o < (loadCompressedImage (mkStream [129, 66]) ⟨0, 0, 10, 0, 0, 0, 2, 1, 8, 0⟩
        (fun _ => 0)).size :=
  claim_C1_stores_in_bounds (mkStream [129, 66]) ⟨0, 0, 10, 0, 0, 0, 2, 1, 8, 0⟩
    (fun _ => 0) (by norm_num [U32])

/-- Claim C10 — counterexample to the claim as stated.  For the header
65535×65535 at depth 16 the product `width×height×bytesPerPixel` is
8589672450, which does not fit the source's 32-bit arithmetic: the buffer
actually allocated has `8589672450 mod 2^32 = 4294705154` bytes — strictly
fewer than the claimed `width×height×bytesPerPixel`. -/
theorem claim_C10_counterexample :
    (loadCompressedImage (mkStream []) ⟨0, 0, 10, 0, 0, 0, 65535, 65535, 16, 0⟩
      (fun _ => 0)).size ≠ 65535 * 65535 * (16 / 8) := by
  intro hcontra
  have hsz : (loadCompressedImage (mkStream []) ⟨0, 0, 10, 0, 0, 0, 65535, 65535, 16, 0⟩
      (fun _ => 0)).size = (65535 * 65535 * (16 / 8)) % U32 := rfl
  rw [hsz] at hcontra
  norm_num [U32] at hcontra

/-- Claim C10 (amended): in the regime where the 32-bit size and offset
arithmetic cannot wrap (`width×height×bytesPerPixel + 128×bytesPerPixel ≤
2^32`), the decompressor terminates on every input stream — the fuelled
loop exits by its own condition or by `break` without exhausting its fuel —
returning a buffer of exactly `width×height×bytesPerPixel` bytes; when the
pixel depth is below 8 the computed image size is 0 (so the loop body never
runs); and each iteration that falls through to the next loop test has
strictly advanced the output offset by at least `bytesPerPixel`. -/
theorem claim_C10_termination (s : TGAStream) (header : STGAHeader) (buf0 : Nat → Nat)
    (hov : header.ImageHeight * header.ImageWidth * (header.PixelDepth / 8) +
      128 * (header.PixelDepth / 8) ≤ U32) :
    (loadCompressedImage s header buf0).fuelOut = false ∧
    (loadCompressedImage s header buf0).size =
      header.ImageHeight * header.ImageWidth * (header.PixelDepth / 8) ∧
    (header.PixelDepth < 8 → (loadCompressedImage s header buf0).size = 0) ∧
    (∀ st st', st.currentByte <
        header.ImageHeight * header.ImageWidth * (header.PixelDepth / 8) →
      rleIter s (header.PixelDepth / 8)
        (header.ImageHeight * header.ImageWidth * (header.PixelDepth / 8)) st = Sum.inl st' →
      st.currentByte + header.PixelDepth / 8 ≤ st'.currentByte) := by
  have hPlt : (header.ImageHeight * header.ImageWidth * (header.PixelDepth / 8)) % U32 =
      header.ImageHeight * header.ImageWidth * (header.PixelDepth / 8) := by
    rcases Nat.eq_zero_or_pos (header.PixelDepth / 8) with h0 | h1
    · rw [h0]
      simp [U32]
    · have : 128 ≤ 128 * (header.PixelDepth / 8) := by omega
      exact Nat.mod_eq_of_lt (by omega)
  refine ⟨?_, hPlt, ?_, ?_⟩
  · show (rleLoop s (header.PixelDepth / 8)
      ((header.ImageHeight * header.ImageWidth * (header.PixelDepth / 8)) % U32)
      (s.len + (header.ImageHeight * header.ImageWidth * (header.PixelDepth / 8)) % U32 + 1)
      ⟨buf0, [], 0, 0, [], false⟩).fuelOut = false
    apply rleLoop_fuelOut
    · rw [hPlt]
      exact hov
    · rcases Nat.eq_zero_or_pos (header.PixelDepth / 8) with h0 | h1
      · right
        rw [h0]
        simp [U32]
      · left
        exact h1
    · rfl
    · simp only
      omega
  · intro hd
    have h0 : header.PixelDepth / 8 = 0 := Nat.div_eq_of_lt hd
    show (header.ImageHeight * header.ImageWidth * (header.PixelDepth / 8)) % U32 = 0
    rw [h0]
    simp [U32]
  · intro st st' hc hit
    exact rleIter_inl_advance s (header.PixelDepth / 8) _ st st' hov hc hit

/-- Claim C10 witness: the 2×1 8-bit run-packet stream decodes without fuel
exhaustion into a buffer of exactly 2 bytes. -/
theorem claim_C10_termination_witness :
    (loadCompressedImage (mkStream [129, 66]) ⟨0, 0, 10, 0, 0, 0, 2, 1, 8, 0⟩
      (fun _ => 0)).fuelOut = false ∧
    (loadCompressedImage (mkStream [129, 66]) ⟨0, 0, 10, 0, 0, 0, 2, 1, 8, 0⟩
      (fun _ => 0)).size = 1 * 2 * (8 / 8) :=
  let h := claim_C10_termination (mkStream [129, 66]) ⟨0, 0, 10, 0, 0, 0, 2, 1, 8, 0⟩
    (fun _ => 0) (by norm_num [U32])
  ⟨h.1, h.2.1⟩

/-! ### The wraparound counterexample configuration

For the header 38052×3641 at pixel depth 248 (`bytesPerPixel = 31`) the
image byte size is `38052 · 3641 · 31 = 4294967292 = 2^32 - 4`, within 3967
bytes of the `u32` modulus, so the bound checks of the packet loop can wrap.
The all-`255` stream below consists of 1082401 maximal run packets (header
byte 255, 31 sample bytes each, 128 repetitions) followed by one final run
packet whose sample read finds the stream exhausted; during that packet's
repetitions the offset reaches exactly `2^32 - 4` and the check
`currentByte + bytesPerPixel <= imageSize` wraps to 27, letting the copy
store at offset `2^32 - 4` — the buffer's size itself, one past its last
valid index. -/

theorem U32_eq : U32 = 4294967296 := by norm_num [U32]

def bigHeader : STGAHeader := ⟨0, 0, 10, 0, 0, 0, 38052, 3641, 248, 0⟩

def bigStream : TGAStream := ⟨34636833, fun _ => 255⟩

def bigBuf : Nat → Nat := fun _ => 0

theorem chunk_big (p : Nat) (hp : p < 34636833) : chunkOf bigStream p = 255 := by
  unfold chunkOf bigStream
  rw [if_pos hp]
  norm_num

theorem posAfter_big (p : Nat) (hp : p < 34636833) : posAfterHeader bigStream p = p + 1 := by
  unfold posAfterHeader bigStream
  rw [if_pos hp]

/-- One full run packet of the climb: from output offset `3968·j` and
stream position `32·j` (with `j` below the final packet), the iteration
consumes 32 stream bytes and advances the offset by `31·128 = 3968`. -/
theorem big_step (j : Nat) (hj : j < 1082401) (buf : Nat → Nat) (w : List Nat)
    (lg : List LogMsg) (fo : Bool) :
    ∃ st', rleIter bigStream 31 4294967292 ⟨buf, w, 3968 * j, 32 * j, lg, fo⟩ = Sum.inl st' ∧
      st'.currentByte = 3968 * (j + 1) ∧ st'.pos = 32 * (j + 1) ∧
      st'.logs = lg ∧ st'.fuelOut = fo := by
  have hpos : 32 * j < 34636833 := by omega
  have hch : chunkOf bigStream (32 * j) = 255 := chunk_big _ hpos
  have hpa : posAfterHeader bigStream (32 * j) = 32 * j + 1 := posAfter_big _ hpos
  have hmod : (3968 * j + 31) % U32 = 3968 * j + 31 := by
    rw [U32_eq]
    exact Nat.mod_eq_of_lt (by omega)
  have hrc : readCount bigStream (32 * j + 1) 31 = 31 := by
    unfold readCount bigStream
    simp only
    omega
  simp only [rleIter, hch, hpa, hrc]
  rw [if_neg (by norm_num), if_pos (by rw [hmod]; omega)]
  have hpass := runCopies_pass 31 4294967292 (3968 * j) 127
    ⟨writeFromStream bigStream (32 * j + 1) (3968 * j) 31 buf,
      w ++ (List.range 31).map (fun k => 3968 * j + k),
      (3968 * j + 31) % U32, 32 * j + 1 + 31, lg, fo⟩
    (by simp only; rw [hmod]) (by simp only; rw [hmod]; omega)
    (by simp only; rw [hmod, U32_eq]; omega)
  refine ⟨_, rfl, ?_, ?_, ?_, ?_⟩
  · rw [hpass.1]
    simp only
    rw [hmod]
    ring
  · rw [runCopies_pos]
    simp only
    omega
  · rw [runCopies_logs]
  · rw [runCopies_fuelOut]

theorem runCopies_one (bpp iS d : Nat) (st : RLEState) :
    runCopies bpp iS d 1 st = runCopyStep bpp iS d st := by
  rw [show (1 : Nat) = 0 + 1 from rfl, runCopies, runCopies]

/-- The final run packet: its header byte is the last stream byte, the
sample read transfers nothing, three repetition steps bring the offset to
exactly `4294967292 = imageSize`, and the fourth step's bound check wraps
(`(4294967292 + 31) mod 2^32 = 27 ≤ imageSize`), so it stores at offset
`4294967292` — at the size of the buffer, out of bounds. -/
theorem big_last (buf : Nat → Nat) (w : List Nat) (lg : List LogMsg) (fo : Bool) :
    ∃ st', rleIter bigStream 31 4294967292
        ⟨buf, w, 3968 * 1082401, 32 * 1082401, lg, fo⟩ = Sum.inl st' ∧
      4294967292 ∈ st'.writes := by
  have hpos : 32 * 1082401 < 34636833 := by norm_num
  have hch : chunkOf bigStream (32 * 1082401) = 255 := chunk_big _ hpos
  have hpa : posAfterHeader bigStream (32 * 1082401) = 34636833 := by
    rw [posAfter_big _ hpos]
  have hrc : readCount bigStream 34636833 31 = 0 := by
    unfold readCount bigStream
    simp only
    omega
  have hmod : (3968 * 1082401 + 31) % U32 = 4294967199 := by
    rw [U32_eq]
  simp only [rleIter, hch, hpa, hrc]
  rw [if_neg (by norm_num), if_pos (by rw [hmod]; norm_num)]
  refine ⟨_, rfl, ?_⟩
  have hpass := runCopies_pass 31 4294967292 (3968 * 1082401) 3
    ⟨writeFromStream bigStream 34636833 (3968 * 1082401) 0 buf,
      w ++ (List.range 0).map (fun k => 3968 * 1082401 + k),
      (3968 * 1082401 + 31) % U32, 34636833 + 0, lg, fo⟩
    (by simp only; rw [hmod]) (by simp only; rw [hmod])
    (by simp only; rw [hmod, U32_eq]; norm_num)
  rw [show (255 - 127 - 1 : Nat) = 3 + 124 from by norm_num, runCopies_add,
    show (124 : Nat) = 1 + 123 from by norm_num, runCopies_add, runCopies_one]
  obtain ⟨l, hl⟩ := runCopies_writes_mono 31 4294967292 (3968 * 1082401) 123
    (runCopyStep 31 4294967292 (3968 * 1082401)
      (runCopies 31 4294967292 (3968 * 1082401) 3
        ⟨writeFromStream bigStream 34636833 (3968 * 1082401) 0 buf,
          w ++ (List.range 0).map (fun k => 3968 * 1082401 + k),
          (3968 * 1082401 + 31) % U32, 34636833 + 0, lg, fo⟩))
  rw [hl]
  apply List.mem_append_left
  have hc3 : (runCopies 31 4294967292 (3968 * 1082401) 3
      ⟨writeFromStream bigStream 34636833 (3968 * 1082401) 0 buf,
        w ++ (List.range 0).map (fun k => 3968 * 1082401 + k),
        (3968 * 1082401 + 31) % U32, 34636833 + 0, lg, fo⟩).currentByte = 4294967292 := by
    rw [hpass.1]
    simp only
    rw [hmod]
  unfold runCopyStep
  rw [if_pos (by rw [hc3, U32_eq]; norm_num)]
  simp only [List.mem_append]
  right
  rw [hc3]
  simp only [List.mem_map, List.mem_range]
  refine ⟨0, by norm_num, ?_⟩
  rw [U32_eq]

/-- The packet loop run over the whole climb: starting `k` packets before
the final one with any buffer contents and write log, the out-of-bounds
offset `4294967292` ends up in the write log. -/
theorem big_climb : ∀ (k j : Nat), j + k = 1082401 →
    ∀ (fuel : Nat), k + 2 ≤ fuel →
    ∀ (buf : Nat → Nat) (w : List Nat) (lg : List LogMsg) (fo : Bool),
      4294967292 ∈ (rleLoop bigStream 31 4294967292 fuel
        ⟨buf, w, 3968 * j, 32 * j, lg, fo⟩).writes := by
  intro k
  induction k with
  | zero =>
    intro j hj fuel hfuel buf w lg fo
    have hj' : j = 1082401 := by omega
    subst hj'
    obtain ⟨f, rfl⟩ : ∃ f, fuel = f + 1 := ⟨fuel - 1, by omega⟩
    rw [rleLoop]
    rw [if_pos (by norm_num : (3968 * 1082401 : Nat) < 4294967292)]
    obtain ⟨st', hit, hmem⟩ := big_last buf w lg fo
    rw [hit]
    show 4294967292 ∈ (rleLoop bigStream 31 4294967292 f st').writes
    obtain ⟨l, hl⟩ := rleLoop_writes_mono bigStream 31 4294967292 f st'
    rw [hl]
    exact List.mem_append_left _ hmem
  | succ k ih =>
    intro j hj fuel hfuel buf w lg fo
    have hjlt : j < 1082401 := by omega
    obtain ⟨f, rfl⟩ : ∃ f, fuel = f + 1 := ⟨fuel - 1, by omega⟩
    rw [rleLoop]
    rw [if_pos (by omega : 3968 * j < 4294967292)]
    obtain ⟨st', hit, hc, hp, hl, hf⟩ := big_step j hjlt buf w lg fo
    rw [hit]
    show 4294967292 ∈ (rleLoop bigStream 31 4294967292 f st').writes
    have hst : st' = ⟨st'.buf, st'.writes, 3968 * (j + 1), 32 * (j + 1), lg, fo⟩ := by
      obtain ⟨b2, w2, c2, p2, l2, f2⟩ := st'
      simp only at hc hp hl hf
      rw [hc, hp, hl, hf]
    rw [hst]
    exact ih (j + 1) (by omega) f (by omega) st'.buf st'.writes lg fo

/-- The write log of `loadCompressedImage`, written out as the underlying
loop run (definitional). -/
theorem loadCompressedImage_writes (s : TGAStream) (header : STGAHeader) (buf0 : Nat → Nat) :
    (loadCompressedImage s header buf0).writes =
      (rleLoop s (header.PixelDepth / 8)
        ((header.ImageHeight * header.ImageWidth * (header.PixelDepth / 8)) % U32)
        (s.len + (header.ImageHeight * header.ImageWidth * (header.PixelDepth / 8)) % U32 + 1)
        ⟨buf0, [], 0, 0, [], false⟩).writes := rfl

/-- The allocated size of `loadCompressedImage`'s buffer (definitional). -/
theorem loadCompressedImage_size (s : TGAStream) (header : STGAHeader) (buf0 : Nat → Nat) :
    (loadCompressedImage s header buf0).size =
      (header.ImageHeight * header.ImageWidth * (header.PixelDepth / 8)) % U32 := rfl

/-- Claim C1 — counterexample to the claim as stated.  For the header
38052×3641 at depth 248 and the all-255 stream, the decompressor performs a
store at offset `4294967292`, which is the allocated buffer's size itself:
an out-of-bounds store, caused by the wrap of the 32-bit bound check.  The
claim's universal "never writes outside the buffer, even when the stream is
malformed" is therefore false. -/
theorem claim_C1_counterexample :
    (loadCompressedImage bigStream bigHeader bigBuf).size ∈
      (loadCompressedImage bigStream bigHeader bigBuf).writes := by
  have h := big_climb 1082401 0 (by norm_num) (34636833 + 4294967292 + 1) (by norm_num)
    bigBuf [] [] false
  norm_num at h
  rw [loadCompressedImage_size, loadCompressedImage_writes,
    show bigHeader.PixelDepth = 248 from rfl, show bigHeader.ImageHeight = 3641 from rfl,
    show bigHeader.ImageWidth = 38052 from rfl, show bigStream.len = 34636833 from rfl]
  norm_num [U32_eq]
  exact h

/-- Claim C4 (amended): one iteration of the packet loop has exactly the
claimed packet semantics, in the no-wrap regime, provided the stream
supplies the packet's bytes and — the amendment the code's off-by-one
forces — the run packet's sample read passes the code's strict bound check
`dataOffset + bytesPerPixel < imageSize`.  A run packet with header byte
`h ∈ [128, 255]` then reads exactly one `bytesPerPixel` sample from the
stream (the cursor advances by `1 + bytesPerPixel`) and stores `h - 127`
copies of that same sample in successive output slots, the first repetition
included; a raw packet with header byte `h ∈ [0, 127]` that fits copies
exactly `(h+1)·bytesPerPixel` literal stream bytes verbatim at the current
write offset. -/
theorem claim_C4_packet_semantics (s : TGAStream) (bpp imageSize : Nat) (st : RLEState)
    (hov : imageSize + 128 * bpp < U32)
    (hpos : st.pos < s.len) :
    (128 ≤ chunkOf s st.pos →
      (st.currentByte + bpp) % U32 < imageSize →
      st.currentByte + (chunkOf s st.pos - 127) * bpp ≤ imageSize →
      st.pos + 1 + bpp ≤ s.len →
      ∃ st', rleIter s bpp imageSize st = Sum.inl st' ∧
        st'.pos = st.pos + 1 + bpp ∧
        st'.currentByte = st.currentByte + (chunkOf s st.pos - 127) * bpp ∧
        (∀ i e, i < chunkOf s st.pos - 127 → e < bpp →
          st'.buf (st.currentByte + i * bpp + e) = s.byteAt (st.pos + 1 + e) % 256)) ∧
    (chunkOf s st.pos < 128 →
      st.currentByte + (chunkOf s st.pos + 1) * bpp ≤ imageSize →
      st.pos + 1 + (chunkOf s st.pos + 1) * bpp ≤ s.len →
      ∃ st', rleIter s bpp imageSize st = Sum.inl st' ∧
        st'.pos = st.pos + 1 + (chunkOf s st.pos + 1) * bpp ∧
        st'.currentByte = st.currentByte + (chunkOf s st.pos + 1) * bpp ∧
        (∀ j, j < (chunkOf s st.pos + 1) * bpp →
          st'.buf (st.currentByte + j) = s.byteAt (st.pos + 1 + j) % 256)) := by
  have hpa : posAfterHeader s st.pos = st.pos + 1 := by
    unfold posAfterHeader
    rw [if_pos hpos]
  constructor
  · -- run packet
    intro hch hguard hfit hbytes
    have hmod : (st.currentByte + bpp) % U32 = st.currentByte + bpp := by
      refine Nat.mod_eq_of_lt ?_
      have hble : bpp ≤ (chunkOf s st.pos - 127) * bpp :=
        Nat.le_mul_of_pos_left bpp (by omega)
      linarith
    have hrc : readCount s (st.pos + 1) bpp = bpp := by
      unfold readCount
      omega
    unfold rleIter
    rw [if_neg (by omega), if_pos hguard, hpa, hrc]
    generalize hn : chunkOf s st.pos - 127 = n at hfit ⊢
    obtain ⟨m, rfl⟩ : ∃ m, n = m + 1 := ⟨n - 1, by omega⟩
    rw [Nat.add_sub_cancel]
    have hfit' : st.currentByte + bpp + bpp * m ≤ imageSize := by
      have : bpp + bpp * m = (m + 1) * bpp := by ring
      linarith [hfit, this ▸ le_refl (bpp + bpp * m)]
    have hpass := runCopies_pass bpp imageSize st.currentByte m
      ⟨writeFromStream s (st.pos + 1) st.currentByte bpp st.buf,
        st.writes ++ (List.range bpp).map (fun j => st.currentByte + j),
        (st.currentByte + bpp) % U32, st.pos + 1 + bpp, st.logs, st.fuelOut⟩
      (by simp only; rw [hmod])
      (by simp only; rw [hmod]; exact hfit')
      (by simp only; rw [hmod]; linarith)
    refine ⟨_, rfl, ?_, ?_, ?_⟩
    · rw [runCopies_pos]
    · rw [hpass.1]
      simp only
      rw [hmod]
      ring
    · intro i e hi he
      match i with
      | 0 =>
        have harg : st.currentByte + 0 * bpp + e = st.currentByte + e := by ring
        rw [harg, hpass.2.1 _ (by simp only; rw [hmod]; omega)]
        simp only
        unfold writeFromStream
        rw [if_pos (by omega)]
        have : st.currentByte + e - st.currentByte = e := by omega
        rw [this]
      | i + 1 =>
        have harg : st.currentByte + (i + 1) * bpp + e =
            (⟨writeFromStream s (st.pos + 1) st.currentByte bpp st.buf,
              st.writes ++ (List.range bpp).map (fun j => st.currentByte + j),
              (st.currentByte + bpp) % U32, st.pos + 1 + bpp, st.logs,
              st.fuelOut⟩ : RLEState).currentByte + i * bpp + e := by
          simp only
          rw [hmod]
          ring
        rw [harg, hpass.2.2 i e (by omega) he]
        simp only
        unfold writeFromStream
        rw [if_pos (by omega)]
        have : st.currentByte + e - st.currentByte = e := by omega
        rw [this]
  · -- raw packet
    intro hch hfit hbytes
    have hcomm : bpp * (chunkOf s st.pos + 1) = (chunkOf s st.pos + 1) * bpp :=
      Nat.mul_comm _ _
    unfold rleIter
    rw [if_pos hch, hpa, hcomm]
    generalize hB : (chunkOf s st.pos + 1) * bpp = B at hfit hbytes ⊢
    have hmodB : (st.currentByte + B) % U32 = st.currentByte + B :=
      Nat.mod_eq_of_lt (by linarith)
    have hrcB : readCount s (st.pos + 1) B = B := by
      unfold readCount
      omega
    rw [if_pos (by rw [hmodB]; exact hfit), hrcB]
    refine ⟨_, rfl, rfl, ?_, ?_⟩
    · simp only
      rw [hmodB]
    · intro j hj
      simp only
      unfold writeFromStream
      rw [if_pos (by omega)]
      have : st.currentByte + j - st.currentByte = j := by omega
      rw [this]

/-- Claim C4 witness: for a 2×1 8-bit image, the run packet `[129, 9]`
(repetition count 2) reads the single sample byte 9 and stores it at both
output slots, advancing the offset to 2 and the cursor to 2. -/
theorem claim_C4_packet_semantics_witness :
    ∃ st', rleIter (mkStream [129, 9]) 1 2 ⟨(fun _ => 0), [], 0, 0, [], false⟩ =
        Sum.inl st' ∧
      st'.pos = 2 ∧ st'.currentByte = 2 ∧ st'.buf 0 = 9 ∧ st'.buf 1 = 9 := by
  obtain ⟨st', h1, h2, h3, h4⟩ := (claim_C4_packet_semantics (mkStream [129, 9]) 1 2
    ⟨(fun _ => 0), [], 0, 0, [], false⟩ (by norm_num [U32]) (by norm_num [mkStream])).1
    (by decide) (by decide) (by decide) (by decide)
  refine ⟨st', h1, h2, ?_, ?_, ?_⟩
  · rw [h3]
    rfl
  · exact h4 0 0 (by decide) (by decide)
  · exact h4 1 0 (by decide) (by decide)

/-- Claim C4 — counterexample to the claim as stated.  For a 1×1 8-bit
image the run packet `[128, 77]` has header byte 128 and repetition count
1; its one-pixel output fits the remaining buffer exactly.  The claim says
the decompressor reads one pixel's worth of bytes and stores one copy;
instead the strict sample-read guard rejects the packet: the iteration
breaks with only the header byte consumed, nothing read and nothing
stored. -/
theorem claim_C4_counterexample :
    rleIter (mkStream [128, 77]) 1 1 ⟨(fun _ => 0), [], 0, 0, [], false⟩ =
      Sum.inr ⟨(fun _ => 0), [], 0, 1, [LogMsg.rleHeaderBeyond], false⟩ := by
  rfl

end TGA
